import Mathlib

/-!
Verification of PyQtCmd: a shallow embedding of `QCmdLineEdit` and
`QCmdConsole` from `PyQtCmd/__init__.py` (the packaged variant) together
with the `_enter_line` handler from the unpackaged `copy.py` variant,
and proofs of the specified session-protocol properties.

Python's `collections.deque` (as used by the history buffer) is modelled
by a list of entries plus an optional `maxlen`; `io.StringIO` by a
`String`; the Qt display widget by the list of `(text, format)` runs
inserted into it; the line-edit widget's text buffer by the text before
and after the caret.  Operations that can raise (`deque(maxlen=-1)`,
indexing an empty deque) return `Except String`.
-/

set_option autoImplicit false

namespace PyQtCmd

/-- A character format (Qt `QTextCharFormat`) is opaque to the session
protocol; an abstract tag suffices. -/
abbrev CharFormat := Nat

/-- Python's `s.endswith('\n')`: true exactly when the last character of
`s` is a newline (false on the empty string). -/
def endsWithNewline (s : String) : Bool :=
  match s.data.getLast? with
  | some c => c == '\n'
  | none => false

/-- Model of `collections.deque` holding strings: the entries (leftmost
first) and the optional `maxlen` bound. -/
structure Deque where
  maxlen : Option Nat
  entries : List String
  deriving DecidableEq, Repr

/-- `collections.deque(maxlen=m)`: raises `ValueError` when `m` is a
negative integer; `m = None` means unbounded. -/
def dequeNew (maxlen : Option Int) : Except String Deque :=
  match maxlen with
  | none => .ok ⟨none, []⟩
  | some m =>
    if m < 0 then .error "ValueError: maxlen must be non-negative"
    else .ok ⟨some m.toNat, []⟩

/-- `deque.appendleft(x)`: prepends `x`; when the deque is bounded and
full, the rightmost entry is discarded. -/
def Deque.appendleft (d : Deque) (x : String) : Deque :=
  match d.maxlen with
  | none => ⟨none, x :: d.entries⟩
  | some m => ⟨some m, (x :: d.entries).take m⟩

/-- `deque[i]`: `none` models `IndexError`. -/
def Deque.get? (d : Deque) (i : Nat) : Option String :=
  d.entries.get? i

/-- `deque[0] = x`: `none` models `IndexError` on an empty deque. -/
def Deque.set0? (d : Deque) (x : String) : Option Deque :=
  match d.entries with
  | [] => none
  | _ :: t => some ⟨d.maxlen, x :: t⟩

/-- Whether the deque's `maxlen` bound (when present) is at least `n`. -/
def Deque.capAtLeast (d : Deque) (n : Nat) : Bool :=
  match d.maxlen with
  | none => true
  | some m => decide (n ≤ m)

/-- State of a `QCmdLineEdit`: the tab-expansion width, the history
deque, the history cursor, and the widget's text buffer split at the
caret (`fieldPre` before the caret, `fieldPost` after). -/
structure LineEditState where
  expand_tab : Option Int
  history : Deque
  history_index : Nat
  fieldPre : String
  fieldPost : String
  deriving DecidableEq, Repr

namespace QCmdLineEdit

/-- `QLineEdit.text()`. -/
def text (e : LineEditState) : String := e.fieldPre ++ e.fieldPost

/-- `QLineEdit.setText(s)`: replaces the text, caret at the end. -/
def setText (e : LineEditState) (s : String) : LineEditState :=
  { e with fieldPre := s, fieldPost := "" }

/-- `QLineEdit.insert(s)`: inserts at the caret, caret after the
inserted text. -/
def insert (e : LineEditState) (s : String) : LineEditState :=
  { e with fieldPre := e.fieldPre ++ s }

/-- `QCmdLineEdit.__init__`: builds the history deque (which validates
`max_history`), sets the cursor to 0 and pushes the empty sentinel. -/
def init (max_history : Option Int) (expand_tab : Option Int) :
    Except String LineEditState := do
  let h ← dequeNew max_history
  .ok { expand_tab := expand_tab
        history := h.appendleft ""
        history_index := 0
        fieldPre := ""
        fieldPost := "" }

/-- The tab text chosen by `QCmdLineEdit._intercept_tab`:
`'\t' if self.expand_tab is None else ' ' * self.expand_tab`
(Python string repetition with a non-positive count yields `""`). -/
def tabText (expand_tab : Option Int) : String :=
  match expand_tab with
  | none => "\t"
  | some n => String.mk (List.replicate n.toNat ' ')

/-- `QCmdLineEdit._intercept_tab`: on a tab key press, inserts the tab
text and reports the event as handled (`true`), which makes `event`
return without invoking the default focus-traversal handling. -/
def interceptTab (e : LineEditState) (isTabPress : Bool) :
    Bool × LineEditState :=
  if isTabPress then (true, insert e (tabText e.expand_tab)) else (false, e)

/-- `QCmdLineEdit._update`: `self.setText(self.history[self.history_index])`. -/
def updateField (e : LineEditState) : Except String LineEditState :=
  match e.history.get? e.history_index with
  | none => .error "IndexError: deque index out of range"
  | some s => .ok (setText e s)

/-- `QCmdLineEdit._prev` (navigate to an older entry). -/
def prevLine (e : LineEditState) : Except String LineEditState :=
  if e.history_index < e.history.entries.length - 1 then
    updateField { e with history_index := e.history_index + 1 }
  else .ok e

/-- `QCmdLineEdit._next` (navigate to a newer entry). -/
def nextLine (e : LineEditState) : Except String LineEditState :=
  if e.history_index > 0 then
    updateField { e with history_index := e.history_index - 1 }
  else .ok e

/-- `QCmdLineEdit._enter_line`, packaged variant: reads the text, emits
it (the emitted string is the first component of the result), and only
when it is non-empty records it into the history, pushes a fresh
sentinel and clears the field from the new sentinel. -/
def enterLine (e : LineEditState) : Except String (String × LineEditState) := do
  let t := text e
  if t = "" then .ok (t, e)
  else
    match e.history.set0? t with
    | none => .error "IndexError: deque index out of range"
    | some h =>
      let e' := { e with history_index := 0, history := h.appendleft "" }
      let e'' ← updateField e'
      .ok (t, e'')

/-- `QCmdLineEdit._enter_line`, `copy.py` variant: resets the cursor and
overwrites slot 0 before emitting, then pushes the sentinel and clears
the field; empty lines are recorded too. -/
def enterLineCopy (e : LineEditState) : Except String (String × LineEditState) := do
  let t := text e
  match e.history.set0? t with
  | none => .error "IndexError: deque index out of range"
  | some h =>
    let e' := { e with history_index := 0, history := h.appendleft "" }
    let e'' ← updateField e'
    .ok (t, e'')

/-- Submitting a sequence of lines: each line is typed into the field
and entered with `_enter_line` (packaged variant). -/
def submitMany (e : LineEditState) (lines : List String) :
    Except String LineEditState :=
  match lines with
  | [] => .ok e
  | l :: ls => do
    let (_, e') ← enterLine { e with fieldPre := l, fieldPost := "" }
    submitMany e' ls

end QCmdLineEdit

/-- State of a `QCmdConsole`: the interpreter callable, the two
configured prompt strings, the current text of the prompt label, the
runs inserted into the display, the `stdin` stream's accumulation
buffer (`io.StringIO` contents), the log of interpreter calls made so
far, the embedded line editor and the three streams' character
formats. -/
structure ConsoleState where
  interpreter : String → Bool
  prompt_text : String
  line_continuing_prompt_text : String
  promptLabel : String
  display : List (String × CharFormat)
  stdinBuffer : String
  interpCalls : List String
  editor : LineEditState
  stdinFmt : CharFormat
  stdoutFmt : CharFormat
  stderrFmt : CharFormat

namespace QCmdConsole

/-- `QCmdConsole._display_text`: sets the current char format and
inserts the text into the display. -/
def displayText (c : ConsoleState) (t : String) (fmt : CharFormat) :
    ConsoleState :=
  { c with display := c.display ++ [(t, fmt)] }

/-- `QCmdConsole.Stream.write` (the behavior `OutputStream` inherits,
used by `stdout` and `stderr`): forwards to the display with the
stream's format and returns `len(__s)`. -/
def streamWrite (c : ConsoleState) (fmt : CharFormat) (s : String) :
    Nat × ConsoleState :=
  (s.length, displayText c s fmt)

/-- `QCmdConsole._exec`: calls the interpreter on the accumulated input,
switches the prompt label to the continuation prompt when more input is
needed and back to the primary prompt otherwise, and returns the
interpreter's answer.  The call is recorded in `interpCalls`. -/
def exec (c : ConsoleState) (input : String) : Bool × ConsoleState :=
  let more := c.interpreter input
  let prompt := if more then c.line_continuing_prompt_text else c.prompt_text
  (more, { c with promptLabel := prompt
                  interpCalls := c.interpCalls ++ [input] })

/-- `QCmdConsole.InputStream.write`: displays the text with the stdin
format, appends it to the accumulation buffer, and when the text ends
with `'\n'` evaluates the whole buffer, replacing the buffer with a
fresh empty one unless the interpreter asked for more input; returns
`len(__s)`. -/
def stdinWrite (c : ConsoleState) (s : String) : Nat × ConsoleState :=
  let c1 := displayText c s c.stdinFmt
  let c2 := { c1 with stdinBuffer := c1.stdinBuffer ++ s }
  if endsWithNewline s then
    let (more, c3) := exec c2 c2.stdinBuffer
    if more then (s.length, c3)
    else (s.length, { c3 with stdinBuffer := "" })
  else (s.length, c2)

/-- `QCmdConsole._push` (the slot connected to `line_entered`): echoes
the prompt label's current text with the stdin format, then writes the
line plus `'\n'` to `stdin`. -/
def push (c : ConsoleState) (line : String) : ConsoleState :=
  let c1 := displayText c c.promptLabel c.stdinFmt
  (stdinWrite c1 (line ++ "\n")).2

/-- `stdout.write` / `stderr.write` on the console. -/
def stdoutWrite (c : ConsoleState) (s : String) : Nat × ConsoleState :=
  streamWrite c c.stdoutFmt s

def stderrWrite (c : ConsoleState) (s : String) : Nat × ConsoleState :=
  streamWrite c c.stderrFmt s

/-- Submitting a line at the console: the line is typed into the editor
field and return is pressed, running `QCmdLineEdit._enter_line`; the
`line_entered` emission synchronously invokes `QCmdConsole._push`
before the editor's history update proceeds (packaged variant). -/
def submitLine (c : ConsoleState) (line : String) :
    Except String ConsoleState := do
  let e0 := { c.editor with fieldPre := line, fieldPost := "" }
  let t := QCmdLineEdit.text e0
  let c1 := push c t
  if t = "" then .ok { c1 with editor := e0 }
  else
    match e0.history.set0? t with
    | none => .error "IndexError: deque index out of range"
    | some h =>
      let e1 := { e0 with history_index := 0, history := h.appendleft "" }
      let e2 ← QCmdLineEdit.updateField e1
      .ok { c1 with editor := e2 }

/-- `QCmdConsole.__init__` with an interpreter, optional init text and
the default prompts: the prompt label shows `prompt_text`, the display
starts empty (then receives `init_text` via `stdout` when given), the
accumulation buffer starts empty, and the editor is built with the
given positive history bound. -/
def init (interpreter : String → Bool) (init_text : Option String)
    (prompt_text line_continuing_prompt_text : String) (max_history : Int)
    (stdinFmt stdoutFmt stderrFmt : CharFormat) :
    Except String ConsoleState := do
  let e ← QCmdLineEdit.init (some max_history) none
  let c : ConsoleState :=
    { interpreter := interpreter
      prompt_text := prompt_text
      line_continuing_prompt_text := line_continuing_prompt_text
      promptLabel := prompt_text
      display := []
      stdinBuffer := ""
      interpCalls := []
      editor := e
      stdinFmt := stdinFmt
      stdoutFmt := stdoutFmt
      stderrFmt := stderrFmt }
  .ok (match init_text with
       | none => c
       | some t => (stdoutWrite c t).2)

end QCmdConsole

/-! ### Concrete objects used to instantiate the theorems -/

/-- The interpreter of the continuation scenario: reports "more input
needed" exactly on the one-line text `"if True:\n"`. -/
def demoInterp (s : String) : Bool := s == "if True:\n"

/-- A console built by `QCmdConsole.__init__` with the default prompts,
the `demoInterp` interpreter, no init text and history bound 100. -/
def demoConsoleE : Except String ConsoleState :=
  QCmdConsole.init demoInterp none "> " "… " 100 0 1 2

/-- The console after submitting `"if True:"`. -/
def demoAfter1 : Except String ConsoleState :=
  demoConsoleE.bind fun c => QCmdConsole.submitLine c "if True:"

/-- The console after submitting `"if True:"` and then `"    pass"`. -/
def demoAfter2 : Except String ConsoleState :=
  demoAfter1.bind fun c => QCmdConsole.submitLine c "    pass"

/-- A line editor whose history holds the sentinel and one entry. -/
def navDemoEditor : LineEditState :=
  { expand_tab := none
    history := ⟨some 100, ["", "print(1)"]⟩
    history_index := 0
    fieldPre := ""
    fieldPost := "" }

/-- A line editor with an empty field. -/
def emptyFieldEditor : LineEditState :=
  { expand_tab := none
    history := ⟨some 100, [""]⟩
    history_index := 0
    fieldPre := ""
    fieldPost := "" }

/-- A line editor whose field holds `"x = 1"`. -/
def typedEditor : LineEditState :=
  { expand_tab := none
    history := ⟨some 100, ["", "print(1)"]⟩
    history_index := 0
    fieldPre := "x = 1"
    fieldPost := "" }

/-- A concrete console showing the primary prompt `"> "`. -/
def demoConsole : ConsoleState :=
  { interpreter := demoInterp
    prompt_text := "> "
    line_continuing_prompt_text := "… "
    promptLabel := "> "
    display := []
    stdinBuffer := ""
    interpCalls := []
    editor := emptyFieldEditor
    stdinFmt := 0
    stdoutFmt := 1
    stderrFmt := 2 }

/-- Submitting one line into a fresh capacity-1 editor. -/
def capOneRun : Except String LineEditState :=
  (QCmdLineEdit.init (some 1) none).bind fun e =>
    QCmdLineEdit.submitMany e ["a"]

/-! ### Helper lemmas -/

namespace QCmdLineEdit

lemma updateField_ok (e : LineEditState)
    (h : e.history_index < e.history.entries.length) :
    updateField e = .ok (setText e (e.history.entries[e.history_index])) := by
  unfold updateField Deque.get?
  rw [List.get?_eq_getElem?, List.getElem?_eq_getElem h]

lemma appendleft_entries_exists (ml : Option Nat) (x : String)
    (tail : List String)
    (hcap : (Deque.capAtLeast ⟨ml, x :: tail⟩ 1) = true) :
    ∃ rest, ((⟨ml, x :: tail⟩ : Deque).appendleft "").entries
      = "" :: rest ∧ rest.length ≤
        (match ml with | none => tail.length + 1 | some m => m - 1)
      ∧ rest = (x :: tail).take
        (match ml with | none => tail.length + 1 | some m => m - 1) := by
  cases ml with
  | none =>
    exact ⟨x :: tail, rfl, by simp, by simp [List.take_of_length_le]⟩
  | some m =>
    unfold Deque.capAtLeast at hcap
    have h1 : 1 ≤ m := by simpa using hcap
    obtain ⟨k, rfl⟩ : ∃ k, m = k + 1 := ⟨m - 1, by omega⟩
    refine ⟨(x :: tail).take k, ?_, ?_, by simp⟩
    · show (("" :: x :: tail).take (k + 1)) = "" :: (x :: tail).take k
      simp
    · simp [List.length_take]

/-- Computing `_enter_line` (packaged variant) on a well-formed editor
with non-empty text: the text is emitted and recorded, a fresh sentinel
is pushed, and the field is cleared from it. -/
lemma enterLine_ok (e : LineEditState) (tail : List String)
    (hne : text e ≠ "")
    (hent : e.history.entries = "" :: tail)
    (hcap : e.history.capAtLeast 1 = true) :
    enterLine e = .ok (text e,
      setText
        { e with history_index := 0
                 history := Deque.appendleft ⟨e.history.maxlen, text e :: tail⟩ "" } "") := by
  have hset : e.history.set0? (text e)
      = some ⟨e.history.maxlen, text e :: tail⟩ := by
    unfold Deque.set0?
    rw [hent]
  have hcap' : (Deque.capAtLeast ⟨e.history.maxlen, text e :: tail⟩ 1) = true := by
    unfold Deque.capAtLeast at hcap ⊢
    exact hcap
  obtain ⟨rest, hrest, -, -⟩ :=
    appendleft_entries_exists e.history.maxlen (text e) tail hcap'
  have hupd : updateField
      { e with history_index := 0
               history := Deque.appendleft ⟨e.history.maxlen, text e :: tail⟩ "" }
      = .ok (setText
        { e with history_index := 0
                 history := Deque.appendleft ⟨e.history.maxlen, text e :: tail⟩ "" } "") := by
    unfold updateField Deque.get?
    simp only [hrest]
    rfl
  simp only [enterLine, if_neg hne, hset, hupd]
  rfl

lemma take_append_take (xs ys : List String) (n : Nat) :
    (xs ++ ys.take n).take n = (xs ++ ys).take n := by
  rw [List.take_append_eq_append_take, List.take_append_eq_append_take,
      List.take_take]
  congr 1
  rw [Nat.min_eq_left (by omega)]

/-- One submission step on an explicit well-formed state: the entered
line is recorded at the head behind a fresh sentinel (evicting from the
right past the bound), the cursor resets and the field is cleared. -/
lemma enterLine_ok' (et : Option Int) (k ei : Nat) (l : String) (hl : l ≠ "")
    (tail : List String) :
    enterLine ⟨et, ⟨some (k + 1), "" :: tail⟩, ei, l, ""⟩
      = .ok (l, ⟨et, ⟨some (k + 1), "" :: (l :: tail).take k⟩, 0, "", ""⟩) := by
  have ht : text (⟨et, ⟨some (k + 1), "" :: tail⟩, ei, l, ""⟩ : LineEditState) = l := by
    simp [text]
  simp only [enterLine, ht, if_neg hl]
  rfl

/-- Invariant of repeated submission on a bounded history: starting
from a well-formed state whose deque holds the sentinel and a tail
within the bound, submitting any sequence of non-empty lines succeeds
and leaves the deque holding the sentinel followed by the newest-first
submitted lines and old tail, truncated to `C - 1` entries. -/
lemma submitMany_history (C : Nat) (hC : 1 ≤ C) (lines : List String)
    (hlines : ∀ l ∈ lines, l ≠ "") :
    ∀ (e : LineEditState) (tail : List String),
      e.history = ⟨some C, "" :: tail⟩ →
      tail.length ≤ C - 1 →
      ∃ e2, submitMany e lines = .ok e2
        ∧ e2.history = ⟨some C, "" :: (lines.reverse ++ tail).take (C - 1)⟩ := by
  induction lines with
  | nil =>
    intro e tail he htail
    exact ⟨e, rfl, by rw [he]; simp [List.take_of_length_le htail]⟩
  | cons l ls ih =>
    intro e tail he htail
    have hl : l ≠ "" := hlines l (by simp)
    have hls : ∀ x ∈ ls, x ≠ "" := fun x hx => hlines x (by simp [hx])
    obtain ⟨k, hk⟩ : ∃ k, C = k + 1 := ⟨C - 1, by omega⟩
    subst hk
    obtain ⟨et, eh, ei, ep, eq⟩ := e
    have he' : eh = ⟨some (k + 1), "" :: tail⟩ := he
    subst he'
    have hstep :
        submitMany ⟨et, ⟨some (k + 1), "" :: tail⟩, ei, ep, eq⟩ (l :: ls)
          = submitMany ⟨et, ⟨some (k + 1), "" :: (l :: tail).take k⟩, 0, "", ""⟩ ls := by
      simp only [submitMany]
      rw [show ({ (⟨et, ⟨some (k + 1), "" :: tail⟩, ei, ep, eq⟩ : LineEditState) with
            fieldPre := l, fieldPost := "" } : LineEditState)
          = ⟨et, ⟨some (k + 1), "" :: tail⟩, ei, l, ""⟩ from rfl]
      rw [enterLine_ok' et k ei l hl tail]
      rfl
    have htake : ((l :: tail).take k).length ≤ k + 1 - 1 := by
      simp [List.length_take]
    obtain ⟨e3, hrun3, hh3⟩ := ih hls
      ⟨et, ⟨some (k + 1), "" :: (l :: tail).take k⟩, 0, "", ""⟩
      ((l :: tail).take k) rfl htake
    refine ⟨e3, by rw [hstep, hrun3], ?_⟩
    rw [hh3]
    congr 2
    show (ls.reverse ++ (l :: tail).take (k + 1 - 1)).take (k + 1 - 1)
      = ((l :: ls).reverse ++ tail).take (k + 1 - 1)
    rw [take_append_take]
    congr 1
    simp

end QCmdLineEdit

lemma endsWithNewline_append (s : String) :
    endsWithNewline (s ++ "\n") = true := by
  unfold endsWithNewline
  rw [String.data_append s "\n", show ("\n").data = ['\n'] from rfl,
      List.getLast?_concat]
  rfl

namespace QCmdConsole

lemma stdinWrite_display (c : ConsoleState) (s : String) :
    (stdinWrite c s).2.display = c.display ++ [(s, c.stdinFmt)] := by
  simp only [stdinWrite, displayText, exec]
  cases hnl : endsWithNewline s
  · simp
  · cases hm : c.interpreter (c.stdinBuffer ++ s) <;> simp [hm]

lemma push_display (c : ConsoleState) (line : String) :
    (push c line).display
      = c.display ++ [(c.promptLabel, c.stdinFmt), (line ++ "\n", c.stdinFmt)] := by
  unfold push
  rw [stdinWrite_display]
  simp [displayText]

end QCmdConsole

/-! ### Theorems for the claims -/

/-- C7: with `expand_tab = 4` a tab key press inserts exactly four
spaces at the caret and the event is reported handled (so the default
focus traversal is suppressed and the field keeps focus); with
`expand_tab = None` it inserts one literal tab character. -/
theorem c7_tab_insertion (e : LineEditState) :
    (QCmdLineEdit.interceptTab { e with expand_tab := some 4 } true).1 = true
    ∧ (QCmdLineEdit.interceptTab { e with expand_tab := some 4 } true).2.fieldPre
        = e.fieldPre ++ "    "
    ∧ (QCmdLineEdit.interceptTab { e with expand_tab := some 4 } true).2.fieldPost
        = e.fieldPost
    ∧ (QCmdLineEdit.interceptTab { e with expand_tab := none } true).1 = true
    ∧ (QCmdLineEdit.interceptTab { e with expand_tab := none } true).2.fieldPre
        = e.fieldPre ++ "\t"
    ∧ (QCmdLineEdit.interceptTab { e with expand_tab := none } true).2.fieldPost
        = e.fieldPost :=
  ⟨rfl, rfl, rfl, rfl, rfl, rfl⟩

/-- C10: in the packaged variant, entering an empty line emits the
empty string and leaves the whole editor state (history entries,
cursor, field text) unchanged. -/
theorem c10_empty_line_frame (e : LineEditState)
    (h : QCmdLineEdit.text e = "") :
    QCmdLineEdit.enterLine e = .ok ("", e) := by
  simp [QCmdLineEdit.enterLine, h]

/-- Witness for C10 at a concrete editor. -/
theorem c10_empty_line_frame_witness :
    QCmdLineEdit.enterLine emptyFieldEditor = .ok ("", emptyFieldEditor) :=
  c10_empty_line_frame emptyFieldEditor rfl

/-- Counterexample for C6: constructing the line editor with
`max_history = 0` (a non-positive capacity) is NOT rejected at
construction time — the constructor succeeds — and the resulting
object fails later: entering a non-empty line raises. -/
theorem c6_counterexample :
    (QCmdLineEdit.init (some 0) none).isOk = true
    ∧ ((QCmdLineEdit.init (some 0) none).bind fun e =>
        QCmdLineEdit.enterLine (QCmdLineEdit.setText e "a")).isOk = false :=
  ⟨rfl, rfl⟩

/-- C6 (amended): a negative `max_history` is rejected at construction
(`ValueError` from the deque), but `max_history = 0` is accepted and
yields an object whose non-empty-line submissions fail later. -/
theorem c6_capacity_validation_amended (m : Int) (hm : m < 0) :
    (QCmdLineEdit.init (some m) none).isOk = false
    ∧ (QCmdLineEdit.init (some 0) none).isOk = true
    ∧ ((QCmdLineEdit.init (some 0) none).bind fun e =>
        QCmdLineEdit.enterLine (QCmdLineEdit.setText e "a")).isOk = false := by
  refine ⟨?_, rfl, rfl⟩
  simp only [QCmdLineEdit.init, dequeNew, if_pos hm]
  rfl

/-- Witness for the amended C6 at `max_history = -1`. -/
theorem c6_capacity_validation_amended_witness :
    (QCmdLineEdit.init (some (-1)) none).isOk = false
    ∧ (QCmdLineEdit.init (some 0) none).isOk = true
    ∧ ((QCmdLineEdit.init (some 0) none).bind fun e =>
        QCmdLineEdit.enterLine (QCmdLineEdit.setText e "a")).isOk = false :=
  c6_capacity_validation_amended (-1) (by decide)

/-- C5: under the cursor invariant, `_prev` and `_next` never fail,
never move the cursor outside `[0, len(entries)-1]`, never mutate the
history deque, and are exact no-ops at their boundaries (`_prev` on the
oldest entry, `_next` at index 0), so repeated boundary calls keep
returning the same entry. -/
theorem c5_navigation_clamps (e : LineEditState)
    (h : e.history_index < e.history.entries.length) :
    (∃ e2, QCmdLineEdit.prevLine e = .ok e2 ∧ e2.history = e.history
        ∧ e2.history_index < e2.history.entries.length)
    ∧ (e.history_index = e.history.entries.length - 1 →
        QCmdLineEdit.prevLine e = .ok e)
    ∧ (∃ e2, QCmdLineEdit.nextLine e = .ok e2 ∧ e2.history = e.history
        ∧ e2.history_index < e2.history.entries.length)
    ∧ (e.history_index = 0 → QCmdLineEdit.nextLine e = .ok e) := by
  refine ⟨?_, ?_, ?_, ?_⟩
  · unfold QCmdLineEdit.prevLine
    by_cases hb : e.history_index < e.history.entries.length - 1
    · rw [if_pos hb]
      rw [QCmdLineEdit.updateField_ok _
        (show e.history_index + 1 < e.history.entries.length by omega)]
      exact ⟨_, rfl, rfl,
        show e.history_index + 1 < e.history.entries.length by omega⟩
    · rw [if_neg hb]
      exact ⟨e, rfl, rfl, h⟩
  · intro hI
    unfold QCmdLineEdit.prevLine
    rw [if_neg (by omega)]
  · unfold QCmdLineEdit.nextLine
    by_cases hb : e.history_index > 0
    · rw [if_pos hb]
      rw [QCmdLineEdit.updateField_ok _
        (show e.history_index - 1 < e.history.entries.length by omega)]
      exact ⟨_, rfl, rfl,
        show e.history_index - 1 < e.history.entries.length by omega⟩
    · rw [if_neg hb]
      exact ⟨e, rfl, rfl, h⟩
  · intro hI
    unfold QCmdLineEdit.nextLine
    rw [if_neg (by omega)]

/-- C9: for a non-empty submitted line (on a well-formed history with
room for at least two entries), the packaged record-after-emit variant
of `_enter_line` and the `copy.py` record-before-emit variant produce
the same result: the same emitted text and the same final state, whose
history holds the fresh empty sentinel at index 0 and the submitted
line at index 1, with cursor 0 and an empty field. -/
theorem c9_variant_equivalence (e : LineEditState) (tail : List String)
    (hne : QCmdLineEdit.text e ≠ "")
    (hent : e.history.entries = "" :: tail)
    (hcap : e.history.capAtLeast 2 = true) :
    QCmdLineEdit.enterLine e = QCmdLineEdit.enterLineCopy e
    ∧ ∃ e2, QCmdLineEdit.enterLine e = .ok (QCmdLineEdit.text e, e2)
        ∧ e2.history.entries.head? = some ""
        ∧ e2.history.entries[1]? = some (QCmdLineEdit.text e)
        ∧ e2.history_index = 0
        ∧ QCmdLineEdit.text e2 = "" := by
  have hcap1 : e.history.capAtLeast 1 = true := by
    obtain ⟨d, hd⟩ : ∃ d, e.history = d := ⟨e.history, rfl⟩
    rw [hd] at hcap ⊢
    obtain ⟨ml, es⟩ := d
    cases ml with
    | none => rfl
    | some m =>
      unfold Deque.capAtLeast at hcap ⊢
      simp only [decide_eq_true_eq] at hcap ⊢
      omega
  have hEL := QCmdLineEdit.enterLine_ok e tail hne hent hcap1
  constructor
  · rw [hEL]
    simp only [QCmdLineEdit.enterLineCopy, hEL]
    have hset : e.history.set0? (QCmdLineEdit.text e)
        = some ⟨e.history.maxlen, QCmdLineEdit.text e :: tail⟩ := by
      unfold Deque.set0?
      rw [hent]
    simp only [QCmdLineEdit.enterLineCopy, hset]
    have hupd : QCmdLineEdit.updateField
        { e with history_index := 0
                 history := Deque.appendleft
                   ⟨e.history.maxlen, QCmdLineEdit.text e :: tail⟩ "" }
        = .ok (QCmdLineEdit.setText
          { e with history_index := 0
                   history := Deque.appendleft
                     ⟨e.history.maxlen, QCmdLineEdit.text e :: tail⟩ "" } "") := by
      obtain ⟨rest, hrest, -, -⟩ := QCmdLineEdit.appendleft_entries_exists
        e.history.maxlen (QCmdLineEdit.text e) tail
        (by unfold Deque.capAtLeast at hcap1 ⊢; exact hcap1)
      unfold QCmdLineEdit.updateField Deque.get?
      simp only [hrest]
      rfl
    simp only [hupd]
    rfl
  · refine ⟨_, hEL, ?_, ?_, rfl, rfl⟩
    · obtain ⟨rest, hrest, -, -⟩ := QCmdLineEdit.appendleft_entries_exists
        e.history.maxlen (QCmdLineEdit.text e) tail
        (by unfold Deque.capAtLeast at hcap1 ⊢; exact hcap1)
      simp [QCmdLineEdit.setText, hrest]
    · unfold Deque.capAtLeast at hcap
      cases hM : e.history.maxlen with
      | none =>
        show ((Deque.appendleft ⟨none, QCmdLineEdit.text e :: tail⟩ "").entries)[1]?
          = some (QCmdLineEdit.text e)
        simp [Deque.appendleft]
      | some m =>
        rw [hM] at hcap
        have h2 : 2 ≤ m := by simpa using hcap
        obtain ⟨k, rfl⟩ : ∃ k, m = k + 2 := ⟨m - 2, by omega⟩
        show ((Deque.appendleft ⟨some (k + 2), QCmdLineEdit.text e :: tail⟩ "").entries)[1]?
          = some (QCmdLineEdit.text e)
        show (("" :: QCmdLineEdit.text e :: tail).take (k + 2))[1]?
          = some (QCmdLineEdit.text e)
        simp

/-- Witness for C9 at a concrete editor holding `"x = 1"`. -/
theorem c9_variant_equivalence_witness :
    QCmdLineEdit.enterLine typedEditor = QCmdLineEdit.enterLineCopy typedEditor
    ∧ ∃ e2, QCmdLineEdit.enterLine typedEditor
          = .ok (QCmdLineEdit.text typedEditor, e2)
        ∧ e2.history.entries.head? = some ""
        ∧ e2.history.entries[1]? = some (QCmdLineEdit.text typedEditor)
        ∧ e2.history_index = 0
        ∧ QCmdLineEdit.text e2 = "" :=
  c9_variant_equivalence typedEditor ["print(1)"] (by decide) rfl rfl

/-- Counterexample for C2: with capacity `C = 1` and one submitted line
`"a"`, the claim says the retained entries are the sentinel plus the 1
most recent line (`["", "a"]`), but the deque (whose bound counts the
sentinel as one of its `C` slots) retains only the sentinel. -/
theorem c2_counterexample :
    capOneRun.map (fun e => e.history.entries) = .ok [""]
    ∧ ("" :: (["a"].reverse.take 1)) ≠ [""] :=
  ⟨rfl, by decide⟩

/-- C2 (amended): for every capacity `C ≥ 1` and sequence of non-empty
submitted lines, `len(entries) ≤ C` — hence also the claimed
`≤ C + 1` — always holds, and the retained entries are the sentinel
plus the `C - 1` (not `C`) most recently submitted lines, newest
first: the sentinel occupies one of the deque's `C` slots. -/
theorem c2_history_bound_amended (C : Nat) (hC : 1 ≤ C)
    (lines : List String) (hlines : ∀ l ∈ lines, l ≠ "") :
    ∃ e2, ((QCmdLineEdit.init (some (C : Int)) none).bind fun e =>
        QCmdLineEdit.submitMany e lines) = .ok e2
      ∧ e2.history.entries = "" :: lines.reverse.take (C - 1)
      ∧ e2.history.entries.length ≤ C
      ∧ e2.history.entries.length ≤ C + 1 := by
  obtain ⟨k, rfl⟩ : ∃ k, C = k + 1 := ⟨C - 1, by omega⟩
  have hinit : QCmdLineEdit.init (some ((k + 1 : Nat) : Int)) none
      = .ok ⟨none, ⟨some (k + 1), [""]⟩, 0, "", ""⟩ := by
    simp only [QCmdLineEdit.init, dequeNew]
    rw [if_neg (by omega : ¬(((k + 1 : Nat) : Int) < 0))]
    rw [show (((k + 1 : Nat) : Int)).toNat = k + 1 by omega]
    show (Except.ok (⟨none, Deque.appendleft ⟨some (k + 1), []⟩ "", 0, "", ""⟩
        : LineEditState) : Except String LineEditState)
      = .ok ⟨none, ⟨some (k + 1), [""]⟩, 0, "", ""⟩
    rw [show Deque.appendleft ⟨some (k + 1), []⟩ ""
        = (⟨some (k + 1), [""]⟩ : Deque) from by
      unfold Deque.appendleft
      simp]
  rw [hinit]
  rw [show ((Except.ok (⟨none, ⟨some (k + 1), [""]⟩, 0, "", ""⟩ : LineEditState) :
      Except String LineEditState).bind
      fun e => QCmdLineEdit.submitMany e lines)
    = QCmdLineEdit.submitMany ⟨none, ⟨some (k + 1), [""]⟩, 0, "", ""⟩ lines from rfl]
  obtain ⟨e2, hrun, hh⟩ := QCmdLineEdit.submitMany_history (k + 1) hC lines hlines
    ⟨none, ⟨some (k + 1), [""]⟩, 0, "", ""⟩ [] rfl (by simp)
  refine ⟨e2, hrun, ?_, ?_, ?_⟩
  · rw [hh]
    simp
  · rw [hh]
    simp [List.length_take]
  · rw [hh]
    simp [List.length_take]

/-- Witness for the amended C2 at capacity 2 with lines `["a", "b"]`. -/
theorem c2_history_bound_amended_witness :
    ∃ e2, ((QCmdLineEdit.init (some ((2 : Nat) : Int)) none).bind fun e =>
        QCmdLineEdit.submitMany e ["a", "b"]) = .ok e2
      ∧ e2.history.entries = "" :: ["a", "b"].reverse.take (2 - 1)
      ∧ e2.history.entries.length ≤ 2
      ∧ e2.history.entries.length ≤ 2 + 1 :=
  c2_history_bound_amended 2 (by decide) ["a", "b"] (by decide)

/-- C1: with an interpreter answering "more input needed" exactly on
`"if True:\n"`, submitting `"if True:"` then `"    pass"` leaves, after
the first submission, the accumulation buffer retained (not cleared)
and the continuation prompt showing; the second submission hands the
interpreter the full accumulated two-line text, after which the buffer
is cleared to empty and the primary prompt shows. -/
theorem c1_continuation_accumulation :
    (demoAfter1.map fun c => (c.promptLabel, c.stdinBuffer, c.interpCalls))
      = .ok ("… ", "if True:\n", ["if True:\n"])
    ∧ (demoAfter2.map fun c => (c.promptLabel, c.stdinBuffer, c.interpCalls))
      = .ok ("> ", "", ["if True:\n", "if True:\n    pass\n"]) :=
  ⟨rfl, rfl⟩

/-- C3: submitting `"x = 1"` while the primary prompt `"> "` shows
inserts exactly `"> "` then `"x = 1\n"` into the display (both with the
stdin format) and nothing else — the echoed prompt is the label's text
captured before `_exec` can switch it. -/
theorem c3_round_trip_echo (c : ConsoleState) (h : c.promptLabel = "> ") :
    (QCmdConsole.push c "x = 1").display
      = c.display ++ [("> ", c.stdinFmt), ("x = 1\n", c.stdinFmt)] := by
  rw [QCmdConsole.push_display, h,
      show ("x = 1" ++ "\n" : String) = "x = 1\n" from rfl]

/-- Witness for C3 at a concrete console. -/
theorem c3_round_trip_echo_witness :
    (QCmdConsole.push demoConsole "x = 1").display
      = demoConsole.display
        ++ [("> ", demoConsole.stdinFmt), ("x = 1\n", demoConsole.stdinFmt)] :=
  c3_round_trip_echo demoConsole rfl

/-- C4: every input-channel write returns the full length, and invokes
the evaluation step — on the whole accumulated buffer including the
new text — if and only if the written string ends with a newline; a
write without a trailing newline (interior newlines included) only
appends to the buffer. -/
theorem c4_input_write_eval_iff (c : ConsoleState) (s : String) :
    (QCmdConsole.stdinWrite c s).1 = s.length
    ∧ (QCmdConsole.stdinWrite c s).2.interpCalls
        = (if endsWithNewline s then c.interpCalls ++ [c.stdinBuffer ++ s]
           else c.interpCalls)
    ∧ (QCmdConsole.stdinWrite c s).2.stdinBuffer
        = (if endsWithNewline s then
             (if c.interpreter (c.stdinBuffer ++ s) then c.stdinBuffer ++ s
              else "")
           else c.stdinBuffer ++ s) := by
  cases hnl : endsWithNewline s
  · simp [QCmdConsole.stdinWrite, QCmdConsole.displayText, hnl]
  · cases hm : c.interpreter (c.stdinBuffer ++ s) <;>
      simp [QCmdConsole.stdinWrite, QCmdConsole.displayText, QCmdConsole.exec,
        hnl, hm]

/-- C8: `stdout` and `stderr` writes forward the text to the display
with the respective channel's format, return the full length of the
string, and leave the accumulation buffer, the editor (history entries
and cursor), the prompt text, and the interpreter-call log unchanged. -/
theorem c8_output_write_frame (c : ConsoleState) (s : String) :
    (QCmdConsole.stdoutWrite c s).1 = s.length
    ∧ (QCmdConsole.stdoutWrite c s).2.display = c.display ++ [(s, c.stdoutFmt)]
    ∧ (QCmdConsole.stdoutWrite c s).2.stdinBuffer = c.stdinBuffer
    ∧ (QCmdConsole.stdoutWrite c s).2.editor = c.editor
    ∧ (QCmdConsole.stdoutWrite c s).2.promptLabel = c.promptLabel
    ∧ (QCmdConsole.stdoutWrite c s).2.interpCalls = c.interpCalls
    ∧ (QCmdConsole.stderrWrite c s).1 = s.length
    ∧ (QCmdConsole.stderrWrite c s).2.display = c.display ++ [(s, c.stderrFmt)]
    ∧ (QCmdConsole.stderrWrite c s).2.stdinBuffer = c.stdinBuffer
    ∧ (QCmdConsole.stderrWrite c s).2.editor = c.editor
    ∧ (QCmdConsole.stderrWrite c s).2.promptLabel = c.promptLabel
    ∧ (QCmdConsole.stderrWrite c s).2.interpCalls = c.interpCalls :=
  ⟨rfl, rfl, rfl, rfl, rfl, rfl, rfl, rfl, rfl, rfl, rfl, rfl⟩

/-- Witness for C5 at a concrete editor. -/
theorem c5_navigation_clamps_witness :
    (∃ e2, QCmdLineEdit.prevLine navDemoEditor = .ok e2
        ∧ e2.history = navDemoEditor.history
        ∧ e2.history_index < e2.history.entries.length)
    ∧ (navDemoEditor.history_index
          = navDemoEditor.history.entries.length - 1 →
        QCmdLineEdit.prevLine navDemoEditor = .ok navDemoEditor)
    ∧ (∃ e2, QCmdLineEdit.nextLine navDemoEditor = .ok e2
        ∧ e2.history = navDemoEditor.history
        ∧ e2.history_index < e2.history.entries.length)
    ∧ (navDemoEditor.history_index = 0 →
        QCmdLineEdit.nextLine navDemoEditor = .ok navDemoEditor) :=
  c5_navigation_clamps navDemoEditor (by decide)

end PyQtCmd
